import Mathlib

/-!
Shallow embedding of the Uber NYC 2015 Streamlit dashboard (`src/app.py`,
with `src/unnamed/part_000` a near-duplicate restyled version of the same
pipeline).  The embedded core is the data normalization and aggregation
pipeline:

* `load_data` — file checks, timestamp-column resolution, lenient parsing,
  calendar-feature derivation, base-column canonicalization;
* the sidebar filter (date range and hour range masks);
* the three grouped aggregations `hour_counts`, `weekday_counts`,
  `base_counts` and the insight scalars derived from them.

Modelling conventions:

* A parsed timestamp is a `Nat`, the number of minutes since a fixed naive
  epoch chosen to fall on a Monday at 00:00 (all parsing in the source is
  timezone-naive).  `date` is the day ordinal `t / 1440`, `hour` is
  `t % 1440 / 60`, and the weekday name is obtained from the day ordinal
  modulo 7 against the fixed Monday-first list, mirroring pandas
  `dt.date`, `dt.hour`, `dt.day_name()`.
* The result of the lenient `pd.to_datetime(..., errors="coerce")` on a
  row's timestamp cell is an `Option Nat` (`none` is NaT); the subsequent
  `dropna(subset=[date_col])` is the `filterMap` in `normalize`.
* `groupby(k).size()` over a column is modelled as the list of distinct
  values of that column paired with their multiplicities; pandas sorts
  group keys, modelled with `List.insertionSort`.
* pandas `Series.idxmax` / `idxmin` return the label of the FIRST maximal /
  minimal entry, modelled by left folds that replace the current best only
  on a strict improvement.
-/

namespace UberApp

/-- Fixed Monday-first weekday name list (`weekday_order` in app.py). -/
def weekday_order : List String :=
  ["Monday", "Tuesday", "Wednesday", "Thursday", "Friday", "Saturday", "Sunday"]

/-- Candidate datetime column names recognised by `load_data`
(`DATETIME_CANDIDATES` in app.py). -/
def DATETIME_CANDIDATES : List String :=
  ["Date/Time", "DateTime", "Pickup_date", "Pickup_Date"]

/-- Weekday name of a day ordinal: day 0 is a Monday, names repeat with
period 7 (pandas `dt.day_name()` under the epoch convention above). -/
def dayName (d : Nat) : String :=
  weekday_order.getD (d % 7) "Monday"

/-- Digit-string value: `some` of the decimal value when every character is
a digit and the string is non-empty, else `none`. -/
def digitsVal (cs : List Char) : Option Nat :=
  if cs ≠ [] ∧ cs.all Char.isDigit then
    some (cs.foldl (fun acc c => 10 * acc + (c.toNat - 48)) 0)
  else none

/-- Modelled from the spec: the numeric coercion applied to the optional
geographic columns (`lat`, `lon`).  The coercion code itself is not in
`src/` (only this near-duplicate pipeline is); the spec says absent or
non-numeric values "are coerced to a missing marker, never dropped from
the row".  An optional leading minus sign followed by decimal digits
parses to an integer; anything else coerces to the missing marker
`none`. -/
def parseNum (s : String) : Option Int :=
  match s.toList with
  | '-' :: rest => (digitsVal rest).map (fun n => -(n : Int))
  | cs => (digitsVal cs).map (fun n => (n : Int))

/-- One raw CSV row, as seen after cell-level parsing: `timestampCell` is
the lenient parse result of the row's resolved timestamp cell (for the
fallback strategy, of the concatenated DATE-space-TIME string), `baseCell`
the optional dispatch-base cell (after the `Base Number` → `Base` rename),
and `latRaw` / `lonRaw` the raw text of the optional geographic cells. -/
structure RawRow where
  timestampCell : Option Nat
  baseCell : Option String
  latRaw : String
  lonRaw : String
deriving DecidableEq

/-- One normalized trip record: parsed timestamp plus the derived calendar
features and the optional pass-through columns. -/
structure Row where
  timestamp : Nat
  date : Nat
  hour : Nat
  weekday : String
  base : Option String
  lat : Option Int
  lon : Option Int
deriving DecidableEq

/-- Row-level normalization: a row with an unparseable timestamp (`none`,
pandas NaT) is dropped by `dropna(subset=[date_col])`; a surviving row
gets `date`, `hour`, `weekday` derived from the parsed timestamp and its
optional cells coerced, never dropped (app.py lines 77-82). -/
def parseRow (r : RawRow) : Option Row :=
  match r.timestampCell with
  | none => none
  | some t =>
      some
        { timestamp := t
          date := t / 1440
          hour := t % 1440 / 60
          weekday := dayName (t / 1440)
          base := r.baseCell
          lat := parseNum r.latRaw
          lon := parseNum r.lonRaw }

/-- Table-level normalization: parse every row, keep the survivors in
order. -/
def normalize (rows : List RawRow) : List Row :=
  rows.filterMap parseRow

/-- Fatal failures of `load_data`: each corresponds to an `st.error` +
`st.stop()` pair in app.py, which halts the render pass with no partial
output.  `schemaError` carries the column names actually present. -/
inductive LoadFailure where
  | missingInput : LoadFailure
  | emptyInput : LoadFailure
  | schemaError : List String → LoadFailure
deriving DecidableEq

/-- Timestamp-column resolution, first phase: the first name in the fixed
priority list `DATETIME_CANDIDATES` that occurs among the table's columns
(app.py lines 57-61). -/
def resolve_date_col (cols : List String) : Option String :=
  DATETIME_CANDIDATES.find? (fun c => cols.contains c)

/-- The `load_data` pipeline of app.py (lines 34-88): file-existence and
file-size checks, then timestamp resolution — (a) first present candidate
column, (b) else synthesize a `DateTime` column by concatenating and
parsing the `DATE` and `TIME` columns when both are present, (c) else a
fatal schema error reporting the available columns — then row-level
normalization.  `fromFile` abstracts the backing file: whether it exists
and its byte size. -/
def load_data (fileOk : Bool) (fileSize : Nat) (cols : List String)
    (rows : List RawRow) : Except LoadFailure (List Row × String) :=
  if fileOk = false then Except.error LoadFailure.missingInput
  else if fileSize = 0 then Except.error LoadFailure.emptyInput
  else
    match resolve_date_col cols with
    | some c => Except.ok (normalize rows, c)
    | none =>
        if cols.contains ("DATE") && cols.contains ("TIME") then
          Except.ok (normalize rows, "DateTime")
        else Except.error (LoadFailure.schemaError cols)

/-- Date-range mask of the sidebar filter: inclusive on both ends
(`Series.between` in app.py line 132). -/
def dateMask (s e : Nat) (r : Row) : Bool :=
  decide (s ≤ r.date) && decide (r.date ≤ e)

/-- Hour-range mask of the sidebar filter: inclusive on both ends
(app.py line 138). -/
def hourMask (hmin hmax : Nat) (r : Row) : Bool :=
  decide (hmin ≤ r.hour) && decide (r.hour ≤ hmax)

/-- The filtered view: the date mask is applied first, then the hour mask,
exactly as in app.py lines 137-138. -/
def filterView (tbl : List Row) (s e hmin hmax : Nat) : List Row :=
  (tbl.filter (dateMask s e)).filter (hourMask hmin hmax)

/-- Distinct hour values of the view in ascending order (pandas groupby
sorts its keys; the subsequent `sort_values("hour")` keeps that order). -/
def hourKeys (view : List Row) : List Nat :=
  List.insertionSort (fun a b => a ≤ b) (view.map Row.hour).dedup

/-- The hourly aggregation `hour_counts` (app.py lines 166-171):
`groupby("hour").size()` keyed by the distinct hours actually present —
hours with no matching rows get no entry — ordered ascending by hour. -/
def hour_counts (view : List Row) : List (Nat × Nat) :=
  (hourKeys view).map (fun h => (h, (view.map Row.hour).count h))

/-- First pair with maximal second component (pandas `idxmax` keeps the
earliest maximal label). -/
def idxmaxPair (l : List (Nat × Nat)) : Option (Nat × Nat) :=
  match l with
  | [] => none
  | p :: ps => some (ps.foldl (fun best q => if best.2 < q.2 then q else best) p)

/-- First pair with minimal second component (pandas `idxmin` keeps the
earliest minimal label). -/
def idxminPair (l : List (Nat × Nat)) : Option (Nat × Nat) :=
  match l with
  | [] => none
  | p :: ps => some (ps.foldl (fun best q => if q.2 < best.2 then q else best) p)

/-- Peak row of the hourly insight (app.py line 182). -/
def peak_hour_row (view : List Row) : Option (Nat × Nat) :=
  idxmaxPair (hour_counts view)

/-- Off-peak row of the hourly insight (app.py line 183). -/
def off_hour_row (view : List Row) : Option (Nat × Nat) :=
  idxminPair (hour_counts view)

/-- Number of rows of the view that fall on the named weekday. -/
def weekdayCount (view : List Row) (d : String) : Nat :=
  (view.map Row.weekday).count d

/-- The weekday aggregation `weekday_counts` (app.py lines 217-222):
`groupby("weekday").size().reindex(weekday_order)` — always all seven keys
in Monday-first order, with `none` (pandas NaN) for a day absent from the
view and `some` of its multiplicity otherwise. -/
def weekday_counts (view : List Row) : List (String × Option Nat) :=
  weekday_order.map (fun d =>
    (d, if weekdayCount view d = 0 then none else some (weekdayCount view d)))

/-- The `dropna` step of the weekday insight (app.py line 233): keep only
the days present in the view, with their counts. -/
def valid_weekdays (view : List Row) : List (String × Nat) :=
  (weekday_counts view).filterMap (fun p => p.2.map (fun c => (p.1, c)))

/-- Arithmetic mean of a list of counts, as an exact rational. -/
def listMean (l : List Nat) : Rat :=
  (l.map (fun n => (n : Rat))).sum / (l.length : Rat)

/-- The Monday-Friday key set of the weekday insight (app.py line 242). -/
def workweekNames : List String :=
  ["Monday", "Tuesday", "Wednesday", "Thursday", "Friday"]

/-- The Saturday-Sunday key set of the weekday insight (app.py line 243). -/
def weekendNames : List String :=
  ["Saturday", "Sunday"]

/-- Weekday average of the insight text (app.py line 245): mean of the
`valid_weekdays` counts over the Monday-Friday keys. -/
def weekday_avg (view : List Row) : Rat :=
  listMean (((valid_weekdays view).filter (fun p => workweekNames.contains p.1)).map Prod.snd)

/-- Weekend average of the insight text (app.py line 246): mean of the
`valid_weekdays` counts over the Saturday-Sunday keys. -/
def weekend_avg (view : List Row) : Rat :=
  listMean (((valid_weekdays view).filter (fun p => weekendNames.contains p.1)).map Prod.snd)

/-- Spec-side definition, for comparison with `weekday_avg`: "weekday
average = mean of counts over Monday-Friday keys present", where a key is
present when at least one row of the view falls on it. -/
def specWeekdayAvg (view : List Row) : Rat :=
  listMean ((workweekNames.filter (fun d => weekdayCount view d ≠ 0)).map (weekdayCount view))

/-- Spec-side definition, for comparison with `weekend_avg`: "weekend
average = mean of counts over Saturday-Sunday keys present". -/
def specWeekendAvg (view : List Row) : Rat :=
  listMean ((weekendNames.filter (fun d => weekdayCount view d ≠ 0)).map (weekdayCount view))

/-- The base values of the view: the `Base` cells of the rows that have
one (pandas groupby silently drops NaN keys). -/
def baseValues (view : List Row) : List String :=
  view.filterMap Row.base

/-- The base aggregation `base_counts` (app.py lines 269-274):
`groupby("Base").size()` — one entry per distinct base present, with its
multiplicity — then `sort_values(ascending=False)` on the counts. -/
def base_counts (view : List Row) : List (String × Nat) :=
  List.insertionSort (fun p q => q.2 ≤ p.2)
    ((baseValues view).dedup.map (fun b => (b, (baseValues view).count b)))

/-- Chart truncation of the base section (app.py line 277): only the top
15 entries are displayed. -/
def base_display (view : List Row) : List (String × Nat) :=
  (base_counts view).take 15

/-- The `iloc[0]` of the base insight (app.py line 284): the first entry
of the descending-sorted grouping. -/
def top_base_row (view : List Row) : String × Nat :=
  (base_counts view).headD ("", 0)

/-- Share of the top base (app.py line 287): its count over the count
total of the FULL grouping, not of the truncated top-15 display. -/
def share_top_base (view : List Row) : Rat :=
  ((top_base_row view).2 : Rat) / (((base_counts view).map Prod.snd).sum : Rat)

/-- Data handed to the base section of the page when it is rendered. -/
structure BaseSection where
  counts : List (String × Nat)
  displayed : List (String × Nat)
  topBase : String
  topTrips : Nat
  share : Rat
deriving DecidableEq

/-- Everything the render pass hands to the presentation layer: the KPI
scalars, the three aggregations, and the optional base section. -/
structure Dashboard where
  totalTrips : Nat
  uniqueDays : Nat
  basesMetric : String
  hourAgg : List (Nat × Nat)
  weekdayAgg : List (String × Option Nat)
  baseSection : Option BaseSection
deriving DecidableEq

/-- The render pass over a filtered view.  `hasBase` records whether the
`Base` column exists after the rename fallback; when it does not, the
bases KPI shows the `"N/A"` placeholder (app.py line 156) and the whole
base section is skipped (guard at app.py line 266), with no error
raised — `render` is total. -/
def render (hasBase : Bool) (view : List Row) : Dashboard :=
  { totalTrips := view.length
    uniqueDays := (view.map Row.date).dedup.length
    basesMetric := if hasBase then toString (baseValues view).dedup.length else "N/A"
    hourAgg := hour_counts view
    weekdayAgg := weekday_counts view
    baseSection :=
      if hasBase then
        some
          { counts := base_counts view
            displayed := base_display view
            topBase := (top_base_row view).1
            topTrips := (top_base_row view).2
            share := share_top_base view }
      else none }

/-- A view with every `base` cell erased, as a table read from a CSV with
no base-identifier column would produce. -/
def eraseBase (view : List Row) : List Row :=
  view.map (fun r => { r with base := none })

/-! Sample data for the scenario claims -/

/-- Raw table with rows at hours 8, 8, 8, 17, 17, 3 (all on day 0). -/
def c1Raws : List RawRow :=
  [⟨some 480, some "B02617", "40", "-74"⟩,
   ⟨some 481, some "B02617", "40", "-74"⟩,
   ⟨some 482, some "B02598", "40", "-74"⟩,
   ⟨some 1020, some "B02617", "40", "-74"⟩,
   ⟨some 1021, some "B02598", "x", "y"⟩,
   ⟨some 180, none, "", ""⟩]

/-- The c1 sample table, normalized and filtered with the identity bounds. -/
def c1View : List Row := filterView (normalize c1Raws) 0 0 0 23

/-- Raw table whose base column carries values A, A, A, B. -/
def c3Raws : List RawRow :=
  [⟨some 0, some "A", "", ""⟩, ⟨some 1, some "A", "", ""⟩,
   ⟨some 2, some "A", "", ""⟩, ⟨some 3, some "B", "", ""⟩]

/-- The c3 sample table, normalized and filtered with the identity bounds. -/
def c3View : List Row := filterView (normalize c3Raws) 0 0 0 23

/-- Raw table spanning a Thursday through the following Wednesday, one row
per day: day ordinals 10 (a Thursday, like 2015-01-01) through 16. -/
def c4Raws : List RawRow :=
  [⟨some (10 * 1440), none, "", ""⟩, ⟨some (11 * 1440), none, "", ""⟩,
   ⟨some (12 * 1440), none, "", ""⟩, ⟨some (13 * 1440), none, "", ""⟩,
   ⟨some (14 * 1440), none, "", ""⟩, ⟨some (15 * 1440), none, "", ""⟩,
   ⟨some (16 * 1440), none, "", ""⟩]

/-- The c4 sample table, normalized and filtered with covering bounds. -/
def c4View : List Row := filterView (normalize c4Raws) 0 100 0 23

/-- Raw table with one parseable and one unparseable timestamp. -/
def c5Raws : List RawRow :=
  [⟨some 500, some "B02617", "40", "-74"⟩, ⟨none, none, "x", "y"⟩]

/-- The surviving normalized row of `c5Raws`. -/
def c5Row : Row := ⟨500, 0, 8, "Monday", some "B02617", some 40, some (-74)⟩

/-- A raw row with a parseable timestamp and a non-numeric lat cell. -/
def c9Raw : RawRow := ⟨some 500, none, "abc", "12"⟩

instance : IsTotal (String × Nat) (fun p q => q.2 ≤ p.2) :=
  ⟨fun a b => Nat.le_total b.2 a.2⟩

instance : IsTrans (String × Nat) (fun p q => q.2 ≤ p.2) :=
  ⟨fun _ _ _ h1 h2 => Nat.le_trans h2 h1⟩


/-! Helper lemmas -/

theorem dayName_mem_weekday_order (d : Nat) : dayName d ∈ weekday_order := by
  have h : d % 7 = 0 ∨ d % 7 = 1 ∨ d % 7 = 2 ∨ d % 7 = 3 ∨ d % 7 = 4 ∨ d % 7 = 5 ∨ d % 7 = 6 := by
    omega
  unfold dayName
  rcases h with h | h | h | h | h | h | h <;> rw [h] <;> decide

theorem parseRow_isSome (r : RawRow) : (parseRow r).isSome = r.timestampCell.isSome := by
  unfold parseRow
  cases r.timestampCell <;> rfl

theorem parseRow_some_fields {r : RawRow} {row : Row} (h : parseRow r = some row) :
    r.timestampCell = some row.timestamp
      ∧ row.date = row.timestamp / 1440
      ∧ row.hour = row.timestamp % 1440 / 60
      ∧ row.weekday = dayName (row.timestamp / 1440)
      ∧ row.base = r.baseCell
      ∧ row.lat = parseNum r.latRaw
      ∧ row.lon = parseNum r.lonRaw := by
  unfold parseRow at h
  cases ht : r.timestampCell with
  | none => rw [ht] at h; cases h
  | some t =>
      rw [ht] at h
      injection h with h
      subst h
      exact ⟨rfl, rfl, rfl, rfl, rfl, rfl, rfl⟩

theorem mem_normalize {rows : List RawRow} {row : Row} :
    row ∈ normalize rows ↔ ∃ r ∈ rows, parseRow r = some row := by
  simp [normalize, List.mem_filterMap]

theorem normalize_length (rows : List RawRow) :
    (normalize rows).length = (rows.filter (fun r => r.timestampCell.isSome)).length := by
  induction rows with
  | nil => rfl
  | cons a l ih =>
      cases h : a.timestampCell with
      | none =>
          simp only [normalize, List.filterMap_cons, List.filter_cons, h, Option.isSome_none,
            Bool.false_eq_true, if_false, parseRow]
          exact ih
      | some t =>
          simp only [normalize, List.filterMap_cons, List.filter_cons, h, Option.isSome_some,
            if_true, parseRow, List.length_cons]
          exact congrArg (· + 1) ih

theorem filterView_mem (tbl : List Row) (s e hmin hmax : Nat) (r : Row) :
    r ∈ filterView tbl s e hmin hmax ↔
      r ∈ tbl ∧ (s ≤ r.date ∧ r.date ≤ e) ∧ (hmin ≤ r.hour ∧ r.hour ≤ hmax) := by
  simp only [filterView, List.mem_filter, dateMask, hourMask, Bool.and_eq_true,
    decide_eq_true_eq]
  tauto

theorem filterView_sublist (tbl : List Row) (s e hmin hmax : Nat) :
    (filterView tbl s e hmin hmax).Sublist tbl :=
  (List.filter_sublist _).trans (List.filter_sublist _)


theorem indicator_sum_zero {ds : List String} {a : String} (ha : a ∉ ds) :
    (ds.map (fun d => if a == d then 1 else 0)).sum = 0 := by
  induction ds with
  | nil => rfl
  | cons d ds ih =>
      have hd : (a == d) = false := by
        simp only [beq_eq_false_iff_ne, ne_eq]
        intro h
        exact ha (h ▸ List.mem_cons_self d ds)
      simp only [List.map_cons, List.sum_cons, hd, Bool.false_eq_true, if_false, Nat.zero_add]
      exact ih (fun h => ha (List.mem_cons_of_mem _ h))

theorem indicator_sum_one {ds : List String} (hnd : ds.Nodup) {a : String} (ha : a ∈ ds) :
    (ds.map (fun d => if a == d then 1 else 0)).sum = 1 := by
  induction ds with
  | nil => cases ha
  | cons d ds ih =>
      rcases List.mem_cons.mp ha with h | h
      · subst h
        rw [List.map_cons, List.sum_cons, indicator_sum_zero (List.nodup_cons.mp hnd).1]
        simp
      · have hd : (a == d) = false := by
          simp only [beq_eq_false_iff_ne, ne_eq]
          intro hda
          exact (List.nodup_cons.mp hnd).1 (hda ▸ h)
        simp only [List.map_cons, List.sum_cons, hd, Bool.false_eq_true, if_false, Nat.zero_add]
        exact ih (List.nodup_cons.mp hnd).2 h

theorem sum_counts_eq_length (ds : List String) (hnd : ds.Nodup)
    (l : List String) (hall : ∀ x ∈ l, x ∈ ds) :
    (ds.map (fun d => l.count d)).sum = l.length := by
  induction l with
  | nil => simp
  | cons a l ih =>
      have h1 : ds.map (fun d => (a :: l).count d)
          = ds.map (fun d => l.count d + if a == d then 1 else 0) := by
        apply List.map_congr_left
        intro d _
        exact List.count_cons d a l
      rw [h1, List.sum_map_add, ih (fun x hx => hall x (List.mem_cons_of_mem _ hx)),
        indicator_sum_one hnd (hall a (List.mem_cons_self a l)), List.length_cons]

theorem hour_counts_fst (view : List Row) :
    (hour_counts view).map Prod.fst = hourKeys view := by
  rw [hour_counts, List.map_map]
  exact List.map_id' _

theorem hour_counts_snd (view : List Row) :
    (hour_counts view).map Prod.snd
      = (hourKeys view).map (fun h => (view.map Row.hour).count h) := by
  rw [hour_counts, List.map_map]
  rfl

theorem hour_counts_sum (view : List Row) :
    ((hour_counts view).map Prod.snd).sum = view.length := by
  rw [hour_counts_snd]
  have hperm : ((hourKeys view).map (fun h => (view.map Row.hour).count h)).Perm
      (((view.map Row.hour).dedup).map (fun h => (view.map Row.hour).count h)) :=
    (List.perm_insertionSort _ _).map _
  rw [hperm.sum_eq, List.sum_map_count_dedup_eq_length, List.length_map]

theorem weekday_counts_map_getD (view : List Row) :
    (weekday_counts view).map (fun p => p.2.getD 0)
      = weekday_order.map (fun d => weekdayCount view d) := by
  rw [weekday_counts, List.map_map]
  apply List.map_congr_left
  intro d _
  by_cases h : weekdayCount view d = 0 <;> simp [h]

theorem weekday_counts_sum (view : List Row)
    (hall : ∀ r ∈ view, r.weekday ∈ weekday_order) :
    ((weekday_counts view).map (fun p => p.2.getD 0)).sum = view.length := by
  rw [weekday_counts_map_getD]
  have h2 : ∀ x ∈ view.map Row.weekday, x ∈ weekday_order := by
    intro x hx
    obtain ⟨r, hr, hrx⟩ := List.mem_map.mp hx
    exact hrx ▸ hall r hr
  have h := sum_counts_eq_length weekday_order (by decide) (view.map Row.weekday) h2
  simpa [weekdayCount] using h


theorem filterMap_reindex (c : String → Nat) (ds : List String) :
    (ds.map (fun d => (d, if c d = 0 then none else some (c d)))).filterMap
        (fun p => p.2.map (fun k => (p.1, k)))
      = (ds.filter (fun d => c d != 0)).map (fun d => (d, c d)) := by
  induction ds with
  | nil => rfl
  | cons d ds ih =>
      by_cases h : c d = 0 <;>
        simp [List.filterMap_cons, List.filter_cons, h, ih]

theorem valid_weekdays_eq (view : List Row) :
    valid_weekdays view
      = (weekday_order.filter (fun d => weekdayCount view d != 0)).map
          (fun d => (d, weekdayCount view d)) := by
  rw [valid_weekdays, weekday_counts]
  exact filterMap_reindex (weekdayCount view) weekday_order

theorem avg_list_eq (view : List Row) (names : List String)
    (hnames : weekday_order.filter
          (fun d => names.contains d && (weekdayCount view d != 0))
        = names.filter (fun d => weekdayCount view d != 0)) :
    ((valid_weekdays view).filter (fun p => names.contains p.1)).map Prod.snd
      = (names.filter (fun d => weekdayCount view d != 0)).map (weekdayCount view) := by
  rw [valid_weekdays_eq, List.filter_map, List.map_map, ← hnames, List.filter_filter]
  rfl

theorem weekday_avg_eq_spec (view : List Row) :
    weekday_avg view = specWeekdayAvg view := by
  rw [weekday_avg, specWeekdayAvg,
    avg_list_eq view workweekNames (by simp [weekday_order, workweekNames, List.filter])]
  have h : ∀ a : Nat, (a != 0) = decide (a ≠ 0) := by intro a; cases a <;> rfl
  simp only [h]

theorem weekend_avg_eq_spec (view : List Row) :
    weekend_avg view = specWeekendAvg view := by
  rw [weekend_avg, specWeekendAvg,
    avg_list_eq view weekendNames (by simp [weekday_order, weekendNames, List.filter])]
  have h : ∀ a : Nat, (a != 0) = decide (a ≠ 0) := by intro a; cases a <;> rfl
  simp only [h]


theorem base_counts_perm (view : List Row) :
    (base_counts view).Perm
      (((baseValues view).dedup).map (fun b => (b, (baseValues view).count b))) :=
  List.perm_insertionSort _ _

theorem base_counts_sorted (view : List Row) :
    List.Sorted (fun p q : String × Nat => q.2 ≤ p.2) (base_counts view) :=
  List.sorted_insertionSort _ _

theorem base_counts_sum (view : List Row) :
    ((base_counts view).map Prod.snd).sum = (baseValues view).length := by
  rw [((base_counts_perm view).map Prod.snd).sum_eq, List.map_map]
  have h : (((baseValues view).dedup).map
        (Prod.snd ∘ fun b => (b, (baseValues view).count b)))
      = ((baseValues view).dedup).map (fun b => (baseValues view).count b) := rfl
  rw [h, List.sum_map_count_dedup_eq_length]

theorem base_counts_ne_nil {view : List Row} (h : baseValues view ≠ []) :
    base_counts view ≠ [] := by
  intro hnil
  have hlen := (base_counts_perm view).length_eq
  rw [hnil, List.length_nil, List.length_map] at hlen
  exact h ((List.dedup_eq_nil _).mp (List.length_eq_zero.mp hlen.symm))

theorem top_base_max {view : List Row} (h : baseValues view ≠ []) :
    ∀ p ∈ base_counts view, p.2 ≤ (top_base_row view).2 := by
  intro p hp
  have hs := base_counts_sorted view
  cases hbc : base_counts view with
  | nil => exact absurd hbc (base_counts_ne_nil h)
  | cons q qs =>
      rw [top_base_row, hbc, List.headD_cons]
      rw [hbc] at hp hs
      rcases List.mem_cons.mp hp with hpq | hpq
      · exact hpq ▸ Nat.le_refl _
      · exact List.rel_of_sorted_cons hs p hpq

theorem resolve_date_col_eq (cols : List String) :
    resolve_date_col cols =
      if cols.contains ("Date/Time") then some "Date/Time"
      else if cols.contains ("DateTime") then some "DateTime"
      else if cols.contains ("Pickup_date") then some "Pickup_date"
      else if cols.contains ("Pickup_Date") then some "Pickup_Date"
      else none := by
  rw [resolve_date_col, DATETIME_CANDIDATES]
  by_cases h1 : "Date/Time" ∈ cols <;>
    by_cases h2 : "DateTime" ∈ cols <;>
      by_cases h3 : "Pickup_date" ∈ cols <;>
        by_cases h4 : "Pickup_Date" ∈ cols <;>
          simp [List.find?, List.elem_iff, h1, h2, h3, h4]


theorem idxmin_spec (l : List (Nat × Nat)) (hl : l ≠ []) :
    ∃ p, idxminPair l = some p ∧ p ∈ l ∧ ∀ q ∈ l, p.2 ≤ q.2 := by
  cases l with
  | nil => exact absurd rfl hl
  | cons a as =>
      clear hl
      induction as generalizing a with
      | nil =>
          refine ⟨a, rfl, List.mem_singleton.mpr rfl, ?_⟩
          intro q hq
          rw [List.mem_singleton.mp hq]
      | cons b bs ih =>
          obtain ⟨p, hp1, hp2, hp3⟩ := ih (if b.2 < a.2 then b else a)
          have hstep : idxminPair (a :: b :: bs)
              = idxminPair ((if b.2 < a.2 then b else a) :: bs) := rfl
          refine ⟨p, hstep ▸ hp1, ?_, ?_⟩
          · rcases List.mem_cons.mp hp2 with h | h
            · by_cases hba : b.2 < a.2
              · rw [if_pos hba] at h
                exact h ▸ List.mem_cons_of_mem _ (List.mem_cons_self _ _)
              · rw [if_neg hba] at h
                exact h ▸ List.mem_cons_self _ _
            · exact List.mem_cons_of_mem _ (List.mem_cons_of_mem _ h)
          · intro q hq
            have hple : p.2 ≤ (if b.2 < a.2 then b else a).2 :=
              hp3 _ (List.mem_cons_self _ _)
            have hmin : p.2 ≤ a.2 ∧ p.2 ≤ b.2 := by
              by_cases hba : b.2 < a.2
              · rw [if_pos hba] at hple; omega
              · rw [if_neg hba] at hple; omega
            rcases List.mem_cons.mp hq with h | h
            · rw [h]; exact hmin.1
            · rcases List.mem_cons.mp h with h2 | h2
              · rw [h2]; exact hmin.2
              · exact hp3 _ (List.mem_cons_of_mem _ h2)


theorem hour_counts_mem (view : List Row) (h : Nat) :
    h ∈ (hour_counts view).map Prod.fst ↔ ∃ r ∈ view, r.hour = h := by
  rw [hour_counts_fst, hourKeys, (List.perm_insertionSort _ _).mem_iff, List.mem_dedup,
    List.mem_map]

/-! Claim theorems -/

/-- C1, counterexample: for the non-empty filtered view with rows at hours
8, 8, 8, 17, 17, 3, the key domain of the hourly aggregation is NOT the
full 0-23 range: zero-count hours are absent (hour 0 in particular), and
the off-peak selection is hour 3 with count 1, not a zero-count hour. -/
theorem hour_counts_not_zero_filled :
    c1View ≠ []
      ∧ (hour_counts c1View).map Prod.fst ≠ List.range 24
      ∧ (0, 0) ∉ hour_counts c1View
      ∧ 0 ∉ (hour_counts c1View).map Prod.fst
      ∧ off_hour_row c1View = some (3, 1)
      ∧ off_hour_row c1View ≠ some (0, 0) := by
  decide

/-- C1, amended: for every filtered view, the key domain of the hourly
aggregation is exactly the set of hours present in the view (hours with no
matching rows are omitted, not zero-filled), ordered ascending by hour,
each key carrying its positive row count; for a non-empty view the
off-peak selection of `describeHourly` is an hour present in the view
attaining the minimum count (the earliest such entry in ascending hour
order); for the view with rows at hours 8, 8, 8, 17, 17, 3 the mapping is
hour 3 → 1, hour 8 → 3, hour 17 → 2 and the off-peak hour is 3 with 1
trip. -/
theorem hour_counts_amended (view : List Row) :
    List.Sorted (fun a b => a ≤ b) ((hour_counts view).map Prod.fst)
      ∧ (∀ h : Nat, h ∈ (hour_counts view).map Prod.fst ↔ ∃ r ∈ view, r.hour = h)
      ∧ (∀ p ∈ hour_counts view, p.2 = (view.map Row.hour).count p.1 ∧ 0 < p.2)
      ∧ (view ≠ [] → ∃ p, off_hour_row view = some p ∧ p ∈ hour_counts view
          ∧ ∀ q ∈ hour_counts view, p.2 ≤ q.2)
      ∧ hour_counts c1View = [(3, 1), (8, 3), (17, 2)]
      ∧ off_hour_row c1View = some (3, 1) := by
  refine ⟨?_, hour_counts_mem view, ?_, ?_, by decide, by decide⟩
  · rw [hour_counts_fst]
    exact List.sorted_insertionSort _ _
  · intro p hp
    obtain ⟨h, hh, hph⟩ := List.mem_map.mp hp
    constructor
    · rw [← hph]
    · rw [← hph]
      have hmem : h ∈ view.map Row.hour := by
        have := (List.perm_insertionSort (fun a b => a ≤ b)
          (view.map Row.hour).dedup).mem_iff.mp hh
        exact List.mem_dedup.mp this
      exact List.count_pos_iff.mpr hmem
  · intro hne
    have hkeys : hour_counts view ≠ [] := by
      intro hnil
      obtain ⟨r, hr⟩ := List.exists_mem_of_ne_nil view hne
      have hm : r.hour ∈ (hour_counts view).map Prod.fst :=
        (hour_counts_mem view r.hour).mpr ⟨r, hr, rfl⟩
      rw [hnil] at hm
      cases hm
    exact idxmin_spec _ hkeys

/-- C1, witness for the amended theorem at the sample view. -/
theorem hour_counts_amended_witness :
    (8 ∈ (hour_counts c1View).map Prod.fst ↔ ∃ r ∈ c1View, r.hour = 8)
      ∧ ((3, 1) : Nat × Nat).2 = (c1View.map Row.hour).count ((3, 1) : Nat × Nat).1
      ∧ (∃ p, off_hour_row c1View = some p ∧ p ∈ hour_counts c1View
          ∧ ∀ q ∈ hour_counts c1View, p.2 ≤ q.2) := by
  refine ⟨(hour_counts_amended c1View).2.1 8,
    ((hour_counts_amended c1View).2.2.1 (3, 1) (by decide)).1,
    (hour_counts_amended c1View).2.2.2.1 (by decide)⟩


/-- C2: for every filtered view of a normalized table, the hour-grouping
counts sum to the size of the view, and the weekday-grouping counts — with
every weekday key retained and a missing day read as zero — also sum to
the size of the view: each grouping partitions the view exactly once. -/
theorem aggregations_sum_to_view_size (raws : List RawRow) (s e hmin hmax : Nat) :
    ((hour_counts (filterView (normalize raws) s e hmin hmax)).map Prod.snd).sum
        = (filterView (normalize raws) s e hmin hmax).length
      ∧ ((weekday_counts (filterView (normalize raws) s e hmin hmax)).map
            (fun p => p.2.getD 0)).sum
        = (filterView (normalize raws) s e hmin hmax).length := by
  refine ⟨hour_counts_sum _, weekday_counts_sum _ ?_⟩
  intro r hr
  have hmem : r ∈ normalize raws :=
    (filterView_sublist (normalize raws) s e hmin hmax).mem hr
  obtain ⟨raw, _, hraw⟩ := mem_normalize.mp hmem
  have hf := parseRow_some_fields hraw
  rw [hf.2.2.2.1]
  exact dayName_mem_weekday_order _

/-- C5: every row of a normalized table has its derived fields consistent
with its parsed timestamp — hour in 0..23 and weekday one of the seven
fixed names — and rows whose timestamp fails to parse are dropped, not
kept and not an error: the output size is exactly the number of raw rows
whose timestamp parses. -/
theorem normalize_wellformed (rows : List RawRow) :
    (∀ row ∈ normalize rows,
        row.hour ≤ 23 ∧ row.weekday ∈ weekday_order
          ∧ row.date = row.timestamp / 1440
          ∧ row.hour = row.timestamp % 1440 / 60
          ∧ row.weekday = dayName (row.timestamp / 1440))
      ∧ (normalize rows).length
          = (rows.filter (fun r => r.timestampCell.isSome)).length := by
  refine ⟨?_, normalize_length rows⟩
  intro row hrow
  obtain ⟨raw, _, hraw⟩ := mem_normalize.mp hrow
  obtain ⟨-, hdate, hhour, hweekday, -, -, -⟩ := parseRow_some_fields hraw
  refine ⟨?_, hweekday ▸ dayName_mem_weekday_order _, hdate, hhour, hweekday⟩
  rw [hhour]
  omega

/-- C5, witness at the sample raw table. -/
theorem normalize_wellformed_witness :
    (c5Row.hour ≤ 23 ∧ c5Row.weekday ∈ weekday_order
        ∧ c5Row.date = c5Row.timestamp / 1440
        ∧ c5Row.hour = c5Row.timestamp % 1440 / 60
        ∧ c5Row.weekday = dayName (c5Row.timestamp / 1440))
      ∧ (normalize c5Raws).length
          = (c5Raws.filter (fun r => r.timestampCell.isSome)).length :=
  ⟨(normalize_wellformed c5Raws).1 c5Row (by decide), (normalize_wellformed c5Raws).2⟩

/-- C7: a record is in the filtered view iff it is in the normalized table
and satisfies both inclusive range predicates, and the filtered view is a
subsequence of the table (no reordering, no new rows). -/
theorem filterView_spec (tbl : List Row) (s e hmin hmax : Nat) :
    (∀ r : Row, r ∈ filterView tbl s e hmin hmax ↔
        r ∈ tbl ∧ (s ≤ r.date ∧ r.date ≤ e) ∧ (hmin ≤ r.hour ∧ r.hour ≤ hmax))
      ∧ (filterView tbl s e hmin hmax).Sublist tbl :=
  ⟨filterView_mem tbl s e hmin hmax, filterView_sublist tbl s e hmin hmax⟩

/-- C8: filtering an already-filtered view again with the same bounds
returns the same rows. -/
theorem filterView_idempotent (tbl : List Row) (s e hmin hmax : Nat) :
    filterView (filterView tbl s e hmin hmax) s e hmin hmax
      = filterView tbl s e hmin hmax := by
  have hd : ∀ r ∈ filterView tbl s e hmin hmax, dateMask s e r = true := by
    intro r hr
    exact (List.mem_filter.mp ((List.mem_filter.mp hr).1)).2
  have hh : ∀ r ∈ filterView tbl s e hmin hmax, hourMask hmin hmax r = true := by
    intro r hr
    exact (List.mem_filter.mp hr).2
  calc filterView (filterView tbl s e hmin hmax) s e hmin hmax
      = ((filterView tbl s e hmin hmax).filter (dateMask s e)).filter
          (hourMask hmin hmax) := rfl
    _ = (filterView tbl s e hmin hmax).filter (hourMask hmin hmax) := by
          rw [List.filter_eq_self.mpr hd]
    _ = filterView tbl s e hmin hmax := List.filter_eq_self.mpr hh

/-- C9: whether a raw row survives normalization depends only on its
timestamp cell — the optional geographic cells are coerced (numeric text
to a value, anything else to the missing marker) and never drop the row;
only a missing timestamp ever drops a row. -/
theorem lat_lon_never_drop (r : RawRow) :
    ((parseRow r).isSome ↔ r.timestampCell.isSome = true)
      ∧ (∀ la lo : String,
          (parseRow { r with latRaw := la, lonRaw := lo }).isSome
            = (parseRow r).isSome)
      ∧ (∀ t, r.timestampCell = some t →
          ∃ row : Row, parseRow r = some row
            ∧ row.lat = parseNum r.latRaw ∧ row.lon = parseNum r.lonRaw) := by
  refine ⟨by rw [parseRow_isSome], ?_, ?_⟩
  · intro la lo
    rw [parseRow_isSome, parseRow_isSome]
  · intro t ht
    have hp : parseRow r = some
        { timestamp := t, date := t / 1440, hour := t % 1440 / 60
          weekday := dayName (t / 1440), base := r.baseCell
          lat := parseNum r.latRaw, lon := parseNum r.lonRaw } := by
      unfold parseRow
      rw [ht]
    exact ⟨_, hp, rfl, rfl⟩

/-- C9, witness: a row with a parseable timestamp and a non-numeric lat
cell survives with its lat coerced to the missing marker. -/
theorem lat_lon_never_drop_witness :
    (∃ row : Row, parseRow c9Raw = some row
        ∧ row.lat = parseNum c9Raw.latRaw ∧ row.lon = parseNum c9Raw.lonRaw)
      ∧ parseNum c9Raw.latRaw = none ∧ parseNum c9Raw.lonRaw = some 12 :=
  ⟨(lat_lon_never_drop c9Raw).2.2 500 rfl, by decide, by decide⟩

/-- C10: when the table lacks a base column the render pass skips the base
aggregation and insight entirely and shows the placeholder in the bases
KPI, with no error (the render function is total), and the hourly and
weekday outputs do not depend on the base column in any way. -/
theorem base_absent_spec (view : List Row) :
    (render false view).baseSection = none
      ∧ (render false view).basesMetric = "N/A"
      ∧ (render true view).hourAgg = (render false view).hourAgg
      ∧ (render true view).weekdayAgg = (render false view).weekdayAgg
      ∧ (render true view).totalTrips = (render false view).totalTrips
      ∧ (render true view).uniqueDays = (render false view).uniqueDays
      ∧ hour_counts (eraseBase view) = hour_counts view
      ∧ weekday_counts (eraseBase view) = weekday_counts view := by
  refine ⟨rfl, rfl, rfl, rfl, rfl, rfl, ?_, ?_⟩
  · have hmap : (eraseBase view).map Row.hour = view.map Row.hour := by
      rw [eraseBase, List.map_map]
      rfl
    rw [hour_counts, hour_counts, hourKeys, hourKeys, hmap]
  · have hmap : (eraseBase view).map Row.weekday = view.map Row.weekday := by
      rw [eraseBase, List.map_map]
      rfl
    rw [weekday_counts, weekday_counts]
    apply List.map_congr_left
    intro d _
    rw [weekdayCount, weekdayCount, hmap]


/-- C3: the base aggregation is ordered by descending count, the truncated
display is its 15-entry prefix, and the top base's share is its count
divided by the total over the FULL grouping — which equals the number of
rows carrying a base value, not the displayed-prefix total. -/
theorem base_counts_spec (view : List Row) (hne : baseValues view ≠ []) :
    List.Sorted (fun p q : String × Nat => q.2 ≤ p.2) (base_counts view)
      ∧ (∀ p ∈ base_counts view, p.2 ≤ (top_base_row view).2)
      ∧ base_display view = (base_counts view).take 15
      ∧ ((base_counts view).map Prod.snd).sum = (baseValues view).length
      ∧ share_top_base view
          = ((top_base_row view).2 : Rat) / ((baseValues view).length : Rat) := by
  refine ⟨base_counts_sorted view, top_base_max hne, rfl, base_counts_sum view, ?_⟩
  rw [share_top_base, base_counts_sum view]

/-- C3, witness at a view whose base column carries A, A, A, B. -/
theorem base_counts_spec_witness :
    baseValues c3View ≠ []
      ∧ ((base_counts c3View).map Prod.snd).sum = (baseValues c3View).length
      ∧ share_top_base c3View
          = ((top_base_row c3View).2 : Rat) / ((baseValues c3View).length : Rat) :=
  ⟨by decide, (base_counts_spec c3View (by decide)).2.2.2.1,
    (base_counts_spec c3View (by decide)).2.2.2.2⟩

/-- C4: the weekday (resp. weekend) average is the mean of the counts over
the Monday-Friday (resp. Saturday-Sunday) keys present in the view — a key
with zero underlying rows is excluded by the upstream reindex-then-dropna
handling rather than contributing a zero — and on the table spanning a
Thursday through the following Wednesday with one row per day, every one
of the seven keys has count 1 and both averages equal 1. -/
theorem weekday_averages_spec (view : List Row) :
    weekday_avg view = specWeekdayAvg view
      ∧ weekend_avg view = specWeekendAvg view
      ∧ weekday_counts c4View =
          [("Monday", some 1), ("Tuesday", some 1), ("Wednesday", some 1),
           ("Thursday", some 1), ("Friday", some 1), ("Saturday", some 1),
           ("Sunday", some 1)]
      ∧ weekday_avg c4View = 1 ∧ weekend_avg c4View = 1 := by
  refine ⟨weekday_avg_eq_spec view, weekend_avg_eq_spec view, by decide, ?_, ?_⟩
  · have h : ((valid_weekdays c4View).filter
        (fun p => workweekNames.contains p.1)).map Prod.snd = [1, 1, 1, 1, 1] := by
      decide
    rw [weekday_avg, h]
    norm_num [listMean]
  · have h : ((valid_weekdays c4View).filter
        (fun p => weekendNames.contains p.1)).map Prod.snd = [1, 1] := by
      decide
    rw [weekend_avg, h]
    norm_num [listMean]

/-- C6: `load_data` resolves the timestamp column by taking the first
present name from the fixed priority list; else it synthesizes a
`DateTime` column from the DATE and TIME pair when both are present; else
it fails with a schema error carrying the column names actually present.
A missing or zero-size input file is likewise fatal: the whole call
returns an error and no table is produced. -/
theorem load_data_spec (fileOk : Bool) (fileSize : Nat) (cols : List String)
    (rows : List RawRow) :
    (fileOk = false →
        load_data fileOk fileSize cols rows = Except.error LoadFailure.missingInput)
      ∧ (fileOk = true → fileSize = 0 →
          load_data fileOk fileSize cols rows = Except.error LoadFailure.emptyInput)
      ∧ (resolve_date_col cols =
          if cols.contains ("Date/Time") then some "Date/Time"
          else if cols.contains ("DateTime") then some "DateTime"
          else if cols.contains ("Pickup_date") then some "Pickup_date"
          else if cols.contains ("Pickup_Date") then some "Pickup_Date"
          else none)
      ∧ (∀ c, fileOk = true → fileSize ≠ 0 → resolve_date_col cols = some c →
          load_data fileOk fileSize cols rows = Except.ok (normalize rows, c))
      ∧ (fileOk = true → fileSize ≠ 0 → resolve_date_col cols = none →
          cols.contains ("DATE") = true → cols.contains ("TIME") = true →
          load_data fileOk fileSize cols rows
            = Except.ok (normalize rows, "DateTime"))
      ∧ (fileOk = true → fileSize ≠ 0 → resolve_date_col cols = none →
          (cols.contains ("DATE") && cols.contains ("TIME")) = false →
          load_data fileOk fileSize cols rows
            = Except.error (LoadFailure.schemaError cols)) := by
  refine ⟨?_, ?_, resolve_date_col_eq cols, ?_, ?_, ?_⟩
  · intro h
    simp [load_data, h]
  · intro h1 h2
    simp [load_data, h1, h2]
  · intro c h1 h2 h3
    simp [load_data, h1, h2, h3]
  · intro h1 h2 h3 h4 h5
    simp only [List.elem_eq_mem, decide_eq_true_eq] at h4 h5
    simp [load_data, h1, h2, h3, h4, h5]
  · intro h1 h2 h3 h4
    rw [Bool.and_eq_false_iff] at h4
    simp only [List.elem_eq_mem, decide_eq_false_iff_not] at h4
    simp only [load_data, h1, h2, h3]
    rcases h4 with h4 | h4 <;> simp [h4]

/-- C6, witness: each resolution outcome at a concrete input. -/
theorem load_data_spec_witness :
    load_data true 10 ["Pickup_date", "Base"] [] = Except.ok ([], "Pickup_date")
      ∧ load_data true 10 ["DATE", "TIME"] [] = Except.ok ([], "DateTime")
      ∧ load_data true 10 ["foo"] [] = Except.error (LoadFailure.schemaError ["foo"])
      ∧ load_data false 10 ["foo"] [] = Except.error LoadFailure.missingInput
      ∧ load_data true 0 ["foo"] [] = Except.error LoadFailure.emptyInput :=
  ⟨(load_data_spec true 10 ["Pickup_date", "Base"] []).2.2.2.1 "Pickup_date" rfl
      (by decide) (by decide),
    (load_data_spec true 10 ["DATE", "TIME"] []).2.2.2.2.1 rfl (by decide) (by decide)
      (by decide) (by decide),
    (load_data_spec true 10 ["foo"] []).2.2.2.2.2 rfl (by decide) (by decide) (by decide),
    (load_data_spec false 10 ["foo"] []).1 rfl,
    (load_data_spec true 0 ["foo"] []).2.1 rfl rfl⟩

end UberApp
